import Mathlib

/-!
# Verification of the `Maker.Point` 2D point/vector core (`src/point.ts`)

Shallow embedding of the point module of a vector-drawing library.  The
module operates on loosely-typed JavaScript values, allocates plain
`{x, y}` objects on a heap, and mutates freshly allocated objects in
place (`p1.x -= p2.x`), so the embedding models:

* JavaScript numbers as exact rationals plus `NaN` (`JNum := Option ℚ`,
  `none` = NaN).  The spec describes coordinates as plain real numbers;
  rationals give the same algebra with executable definitions.  `±0` are
  identified and `±Infinity` is not modelled (no operation here divides,
  and the spec's own invariant concerns finite values).
* JavaScript values (`JSVal`): `undefined`, `null`, numbers, strings,
  booleans, arrays, and references to heap-allocated point objects.
* A heap (`Heap := List PObj`) of point-shaped objects with optional
  `x`/`y` properties; references are list indices, allocation appends.
  This makes reference identity, in-place mutation and freshness of
  results expressible.
* Property reads/writes throw (`Except Unit`) exactly on `null` and
  `undefined` receivers, as in JavaScript; reads on other primitives
  yield `undefined` and writes on them are silently dropped.
* The external collaborators (`Math.cos`, `Math.sin`,
  `Angle.ToRadians`, `Angle.FromPointToRadians`,
  `Measure.PointDistance`) are not part of this module; following the
  spec ("assumed to exist and behave as pure numeric functions over
  points and angles") they are a parameter structure of pure
  rational-valued functions.
-/

set_option maxHeartbeats 1000000

namespace MakerPoint

/-- JavaScript numbers for this development: exact rationals, plus `none`
for `NaN`.  `NaN` propagates through every arithmetic operation. -/
abbrev JNum : Type := Option ℚ

/-- JavaScript `+` restricted to numeric operands (NaN propagating). -/
def jadd : JNum → JNum → JNum
  | some a, some b => some (a + b)
  | _, _ => none

/-- JavaScript `-` on numbers (NaN propagating). -/
def jsub : JNum → JNum → JNum
  | some a, some b => some (a - b)
  | _, _ => none

/-- JavaScript `*` on numbers (NaN propagating). -/
def jmul : JNum → JNum → JNum
  | some a, some b => some (a * b)
  | _, _ => none

/-- JavaScript unary `-` on numbers (NaN propagating). -/
def jneg : JNum → JNum
  | some a => some (-a)
  | none => none

/-- The JavaScript values that can reach this module: `undefined`,
`null`, numbers, strings, booleans, arrays, and references to
heap-allocated (point-shaped) objects. -/
inductive JSVal : Type where
  | undefined : JSVal
  | null : JSVal
  | num : JNum → JSVal
  | str : String → JSVal
  | bool : Bool → JSVal
  | arr : List JSVal → JSVal
  | ref : ℕ → JSVal

/-- A heap-allocated plain object with (optional) `x` and `y`
properties — the shape of every object this module allocates. -/
structure PObj where
  x : Option JSVal
  y : Option JSVal

/-- The object heap: references are indices into the list. -/
abbrev Heap : Type := List PObj

/-- Allocate an object literal: append to the heap, return the fresh
reference. -/
def alloc (h : Heap) (o : PObj) : Heap × JSVal := (h ++ [o], .ref h.length)

/-- JavaScript truthiness (`!item` in the source negates this):
`undefined`, `null`, `NaN`, `0`, `""` and `false` are falsy; objects,
arrays and everything else are truthy. -/
def truthy : JSVal → Bool
  | .undefined => false
  | .null => false
  | .num none => false
  | .num (some q) => decide (q ≠ 0)
  | .str s => decide (s ≠ "")
  | .bool b => b
  | .arr _ => true
  | .ref _ => true

/-- JavaScript `ToNumber`, restricted to this value universe.  Strings
other than `""` and arrays other than `[]`/`[number]` are modelled as
`NaN`; no theorem below depends on the numeric value of a non-numeric
operand, only on totality (JavaScript arithmetic never throws on these
values) and on fidelity for actual numbers. -/
def toNumber : JSVal → JNum
  | .undefined => none
  | .null => some 0
  | .num j => j
  | .str s => if s = "" then some 0 else none
  | .bool b => some (if b then 1 else 0)
  | .arr [] => some 0
  | .arr [.num j] => j
  | .arr _ => none
  | .ref _ => none

/-- Read the `x` property of the object at heap index `n` (absent
property or dangling reference reads as `undefined`). -/
def fieldX (h : Heap) (n : ℕ) : JSVal := (Option.bind h[n]? PObj.x).getD .undefined

/-- Read the `y` property of the object at heap index `n`. -/
def fieldY (h : Heap) (n : ℕ) : JSVal := (Option.bind h[n]? PObj.y).getD .undefined

/-- JavaScript property read `v.x`: throws (`TypeError`) on `null` and
`undefined`, yields the stored value on references, and `undefined` on
other primitives and arrays (which have no `x` property here). -/
def getX (h : Heap) (v : JSVal) : Except Unit JSVal :=
  match v with
  | .undefined => .error ()
  | .null => .error ()
  | .ref n => .ok (fieldX h n)
  | _ => .ok .undefined

/-- JavaScript property read `v.y`. -/
def getY (h : Heap) (v : JSVal) : Except Unit JSVal :=
  match v with
  | .undefined => .error ()
  | .null => .error ()
  | .ref n => .ok (fieldY h n)
  | _ => .ok .undefined

/-- Write the `x` property of the object at heap index `n`. -/
def setFieldX (h : Heap) (n : ℕ) (w : JSVal) : Heap :=
  match h[n]? with
  | some o => h.set n ⟨some w, o.y⟩
  | none => h

/-- Write the `y` property of the object at heap index `n`. -/
def setFieldY (h : Heap) (n : ℕ) (w : JSVal) : Heap :=
  match h[n]? with
  | some o => h.set n ⟨o.x, some w⟩
  | none => h

/-- JavaScript property write `v.x = w`: throws on `null`/`undefined`,
updates the heap on references, and is silently dropped on other
primitives (non-strict mode). -/
def setX (h : Heap) (v w : JSVal) : Except Unit Heap :=
  match v with
  | .undefined => .error ()
  | .null => .error ()
  | .ref n => .ok (setFieldX h n w)
  | _ => .ok h

/-- JavaScript property write `v.y = w`. -/
def setY (h : Heap) (v w : JSVal) : Except Unit Heap :=
  match v with
  | .undefined => .error ()
  | .null => .error ()
  | .ref n => .ok (setFieldY h n w)
  | _ => .ok h

/-- `typeof p = "number"` for an optional property value (`NaN` is a
number in JavaScript). -/
def isNumProp : Option JSVal → Bool
  | some (.num _) => true
  | _ => false

/-- Modelled from the spec: `IsPoint` is declared in `maker.ts`, which
is not part of the given sources; the spec's coercion rule 2 reads
"If `item` already satisfies the Point shape (has numeric `x` and
`y`)", so `IsPoint` holds exactly of object references whose `x` and
`y` properties are numbers. -/
def IsPoint (h : Heap) (item : JSVal) : Bool :=
  match item with
  | .ref n =>
    match h[n]? with
    | some o => isNumProp o.x && isNumProp o.y
    | none => false
  | _ => false

/-- The source's test `Array.isArray(item) && item.length > 1`. -/
def isArrayOfLenGT1 : JSVal → Bool
  | .arr xs => decide (xs.length > 1)
  | _ => false

/-- JavaScript indexing `item[i]` for the array case (out-of-range
reads as `undefined`; non-arrays have no numeric indices here). -/
def jIndex : JSVal → ℕ → JSVal
  | .arr xs, i => xs.getD i .undefined
  | _, _ => .undefined

/-- `Zero()`: a freshly allocated point at `(0, 0)`. -/
def Zero (h : Heap) : Heap × JSVal :=
  alloc h ⟨some (.num (some 0)), some (.num (some 0))⟩

/-- `Ensure(item?)`.  The source inspects `arguments`, so the model
takes the full (variadic) argument list; `item` is the first argument,
defaulting to `undefined`.  Branches in source order: falsy → `Zero()`;
`IsPoint` → the item itself (same reference, no allocation);
`Array.isArray(item) && item.length > 1` → `{x: item[0], y: item[1]}`;
`arguments.length > 1` → `{x: arguments[0], y: arguments[0]}`;
otherwise `Zero()`. -/
def Ensure (h : Heap) (args : List JSVal) : Heap × JSVal :=
  let item := args.headD .undefined
  if truthy item = false then Zero h
  else if IsPoint h item then (h, item)
  else if isArrayOfLenGT1 item then alloc h ⟨some (jIndex item 0), some (jIndex item 1)⟩
  else if args.length > 1 then alloc h ⟨some item, some item⟩
  else Zero h

/-- `Clone(point)`: `return { x: point.x, y: point.y }` — reads both
properties (throwing on `null`/`undefined` input) and allocates a new
object. -/
def Clone (h : Heap) (point : JSVal) : Except Unit (Heap × JSVal) := do
  let vx ← getX h point
  let vy ← getY h point
  return alloc h ⟨some vx, some vy⟩

/-- `Add(a, b, subtract = false)`:
`var p1 = Clone(Ensure(a)); var p2 = Ensure(b);` then
`p1.x ∓= p2.x; p1.y ∓= p2.y; return p1;` with reads, writes and heap
threading in source order. -/
def Add (h : Heap) (a b : JSVal) (subtract : Bool) : Except Unit (Heap × JSVal) := do
  let r1 := Ensure h [a]
  let c ← Clone r1.1 r1.2
  let p1 := c.2
  let r2 := Ensure c.1 [b]
  let p2 := r2.2
  if subtract then
    let x1 ← getX r2.1 p1
    let x2 ← getX r2.1 p2
    let h4 ← setX r2.1 p1 (.num (jsub (toNumber x1) (toNumber x2)))
    let y1 ← getY h4 p1
    let y2 ← getY h4 p2
    let h5 ← setY h4 p1 (.num (jsub (toNumber y1) (toNumber y2)))
    return (h5, p1)
  else
    let x1 ← getX r2.1 p1
    let x2 ← getX r2.1 p2
    let h4 ← setX r2.1 p1 (.num (jadd (toNumber x1) (toNumber x2)))
    let y1 ← getY h4 p1
    let y2 ← getY h4 p2
    let h5 ← setY h4 p1 (.num (jadd (toNumber y1) (toNumber y2)))
    return (h5, p1)

/-- `Subtract(a, b)`: `return Add(a, b, true);`. -/
def Subtract (h : Heap) (a b : JSVal) : Except Unit (Heap × JSVal) :=
  Add h a b true

/-- `Scale(point, scale)`: clone of `Ensure(point)`, then
`p.x *= scale; p.y *= scale;`. -/
def Scale (h : Heap) (point : JSVal) (scale : JNum) : Except Unit (Heap × JSVal) := do
  let r1 := Ensure h [point]
  let c ← Clone r1.1 r1.2
  let p := c.2
  let x ← getX c.1 p
  let h2 ← setX c.1 p (.num (jmul (toNumber x) scale))
  let y ← getY h2 p
  let h3 ← setY h2 p (.num (jmul (toNumber y) scale))
  return (h3, p)

/-- `Mirror(point, mirrorX, mirrorY)`: clone of `Ensure(point)`, then
`if (mirrorX) p.x = -p.x; if (mirrorY) p.y = -p.y;`. -/
def Mirror (h : Heap) (point : JSVal) (mirrorX mirrorY : Bool) : Except Unit (Heap × JSVal) := do
  let r1 := Ensure h [point]
  let c ← Clone r1.1 r1.2
  let p := c.2
  let h2 ←
    if mirrorX then do
      let x ← getX c.1 p
      setX c.1 p (.num (jneg (toNumber x)))
    else pure c.1
  let h3 ←
    if mirrorY then do
      let y ← getY h2 p
      setY h2 p (.num (jneg (toNumber y)))
    else pure h2
  return (h3, p)

/-- The external collaborators consumed by this module, which the spec
assumes "exist and behave as pure numeric functions over points and
angles": `Math.cos`, `Math.sin`, `Angle.ToRadians`,
`Angle.FromPointToRadians` and `Measure.PointDistance`.  The two
point-consuming utilities read coordinates from the heap. -/
structure Externals where
  cos : ℚ → ℚ
  sin : ℚ → ℚ
  ToRadians : ℚ → ℚ
  FromPointToRadians : Heap → JSVal → JSVal → ℚ
  PointDistance : Heap → JSVal → JSVal → ℚ

/-- `FromPolar(angleInRadians, radius)`:
`{x: radius * Math.cos(angleInRadians), y: radius * Math.sin(angleInRadians)}`. -/
def FromPolar (E : Externals) (h : Heap) (angleInRadians radius : JNum) : Heap × JSVal :=
  alloc h ⟨some (.num (jmul radius (Option.map E.cos angleInRadians))),
           some (.num (jmul radius (Option.map E.sin angleInRadians)))⟩

/-- `Rotate(point, angleInDegrees, rotationOrigin)`: angle of `point`
about the origin via `Angle.FromPointToRadians`, distance via
`Measure.PointDistance`, a polar offset at the shifted angle, added to
the origin with `Add`. -/
def Rotate (E : Externals) (h : Heap) (point : JSVal) (angleInDegrees : JNum)
    (rotationOrigin : JSVal) : Except Unit (Heap × JSVal) :=
  let pointAngleInRadians : JNum := some (E.FromPointToRadians h point rotationOrigin)
  let d : JNum := some (E.PointDistance h rotationOrigin point)
  let r := FromPolar E h (jadd pointAngleInRadians (Option.map E.ToRadians angleInDegrees)) d
  Add r.1 rotationOrigin r.2 false

/-- The arc entity consumed (read-only) by `FromArc`: an origin point,
radius, and start/end angles in degrees. -/
structure IMakerPathArc where
  origin : JSVal
  radius : JNum
  startAngle : JNum
  endAngle : JNum

/-- The inner helper of `FromArc`:
`Add(arc.origin, FromPolar(Angle.ToRadians(angle), arc.radius))`. -/
def getPointFromAngle (E : Externals) (arc : IMakerPathArc) (h : Heap) (angle : JNum) :
    Except Unit (Heap × JSVal) :=
  let r := FromPolar E h (Option.map E.ToRadians angle) arc.radius
  Add r.1 arc.origin r.2 false

/-- `FromArc(arc)`: `[getPointFromAngle(arc.startAngle),
getPointFromAngle(arc.endAngle)]`, elements evaluated left to right. -/
def FromArc (E : Externals) (h : Heap) (arc : IMakerPathArc) :
    Except Unit (Heap × (JSVal × JSVal)) := do
  let s ← getPointFromAngle E arc h arc.startAngle
  let e ← getPointFromAngle E arc s.1 arc.endAngle
  return (e.1, (s.2, e.2))

/-! ## Spec-side definitions

Definitions in this section follow the wording of the specification (not
the source); they exist to be compared with the source-derived
operations above. -/

/-- A JavaScript number value (`typeof v = "number"`; `NaN` is a
number). -/
def isNumV : JSVal → Bool
  | .num _ => true
  | _ => false

/-- The spec's rule-3 guard read literally: "`item` is an ordered
sequence of at least two numbers" — an array of length at least two
whose consumed elements (the first two; "additional elements are
ignored") are numbers. -/
def isNumSeqGE2 : JSVal → Bool
  | .arr xs => decide (xs.length ≥ 2) && isNumV (xs.getD 0 .undefined) && isNumV (xs.getD 1 .undefined)
  | _ => false

/-- Modelled from the spec: the five-rule coercion contract of §4.1,
rules in precedence order: (1) falsy → `Zero()`; (2) Point-shaped →
the same reference; (3) sequence of at least two numbers →
`{x: item[0], y: item[1]}`; (4) a second positional argument supplied →
`{x: first, y: first}`; (5) otherwise `Zero()`. -/
def EnsureContract (h : Heap) (args : List JSVal) : Heap × JSVal :=
  let item := args.headD .undefined
  if truthy item = false then Zero h
  else if IsPoint h item then (h, item)
  else if isNumSeqGE2 item then alloc h ⟨some (jIndex item 0), some (jIndex item 1)⟩
  else if args.length > 1 then alloc h ⟨some item, some item⟩
  else Zero h

/-- The five-rule contract with rule 3 amended to what the code
implements: the guard is only "`item` is an array of length at least
two" — the elements need not be numbers, and the first two are taken
verbatim as the coordinates. -/
def EnsureContractAmended (h : Heap) (args : List JSVal) : Heap × JSVal :=
  let item := args.headD .undefined
  if truthy item = false then Zero h
  else if IsPoint h item then (h, item)
  else
    match item with
    | .arr (v0 :: v1 :: _) => alloc h ⟨some v0, some v1⟩
    | _ => if args.length > 1 then alloc h ⟨some item, some item⟩ else Zero h

/-- The numeric coordinates of the point object referenced by `v`
(`none` when `v` is not a reference to an object with numeric `x` and
`y`).  The coordinates themselves may still be `NaN`. -/
def coordsAt (h : Heap) (v : JSVal) : Option (JNum × JNum) :=
  match v with
  | .ref n =>
    match h[n]? with
    | some o =>
      match o.x, o.y with
      | some (.num jx), some (.num jy) => some (jx, jy)
      | _, _ => none
    | none => none
  | _ => none

/-- `v` references a point object whose coordinates are finite
numbers (the spec's invariant for produced Points). -/
def finiteCoords (h : Heap) (v : JSVal) : Prop :=
  ∃ qx qy : ℚ, coordsAt h v = some (some qx, some qy)

/-- Boolean form of `finiteCoords`. -/
def finitePointB (h : Heap) (v : JSVal) : Bool :=
  match coordsAt h v with
  | some (some _, some _) => true
  | _ => false

/-- A finite JavaScript number value. -/
def isFiniteNumV : JSVal → Bool
  | .num (some _) => true
  | _ => false

/-- The argument lists on which `Ensure` preserves the spec's
finite-coordinate invariant, branch by branch of the contract: falsy
inputs and the final fallback always do; a Point-shaped input must have
finite coordinates; an array input must carry finite numbers in its
first two slots; a scalar-broadcast first argument must itself be a
finite number. -/
def EnsureGood (h : Heap) (args : List JSVal) : Bool :=
  let item := args.headD .undefined
  if truthy item = false then true
  else if IsPoint h item then finitePointB h item
  else if isArrayOfLenGT1 item then isFiniteNumV (jIndex item 0) && isFiniteNumV (jIndex item 1)
  else if args.length > 1 then isFiniteNumV item
  else true

/-- `h2` extends `h`: every object that existed in `h` is unchanged in
`h2` (so no operation mutated any pre-existing reference). -/
def preserves (h h2 : Heap) : Prop :=
  h.length ≤ h2.length ∧ ∀ i, i < h.length → h2[i]? = h[i]?

/-- All references occurring in `v` point into `h`. -/
def validV (h : Heap) (v : JSVal) : Prop :=
  ∀ n, v = .ref n → n < h.length

/-! ## Heap and run lemmas -/

theorem preserves_refl (h : Heap) : preserves h h := ⟨le_refl _, fun _ _ => rfl⟩

theorem preserves_trans {h1 h2 h3 : Heap} (a : preserves h1 h2) (b : preserves h2 h3) :
    preserves h1 h3 :=
  ⟨le_trans a.1 b.1, fun i hi => (b.2 i (lt_of_lt_of_le hi a.1)).trans (a.2 i hi)⟩

theorem preserves_alloc (h : Heap) (o : PObj) : preserves h (h ++ [o]) := by
  refine ⟨by simp, fun i hi => ?_⟩
  exact List.getElem?_append_left hi

theorem getElem?_lt {h : Heap} {n : ℕ} {o : PObj} (hg : h[n]? = some o) : n < h.length := by
  by_contra hc
  push_neg at hc
  rw [List.getElem?_eq_none hc] at hg
  cases hg

theorem preserves_set_ge {h h2 : Heap} (hp : preserves h h2) {n : ℕ} (hn : h.length ≤ n)
    (o : PObj) : preserves h (h2.set n o) := by
  refine ⟨le_trans hp.1 (by simp), fun i hi => ?_⟩
  rw [List.getElem?_set_ne (by omega), hp.2 i hi]

theorem preserves_setFieldX_ge {h h2 : Heap} (hp : preserves h h2) {n : ℕ}
    (hn : h.length ≤ n) (w : JSVal) : preserves h (setFieldX h2 n w) := by
  unfold setFieldX
  cases hg : h2[n]? with
  | none => exact hp
  | some o => exact preserves_set_ge hp hn _

theorem preserves_setFieldY_ge {h h2 : Heap} (hp : preserves h h2) {n : ℕ}
    (hn : h.length ≤ n) (w : JSVal) : preserves h (setFieldY h2 n w) := by
  unfold setFieldY
  cases hg : h2[n]? with
  | none => exact hp
  | some o => exact preserves_set_ge hp hn _

/-- Coordinates survive heap extension. -/
theorem coordsAt_mono {h h2 : Heap} (hp : preserves h h2) {v : JSVal} {c : JNum × JNum}
    (hc : coordsAt h v = some c) : coordsAt h2 v = some c := by
  cases v with
  | ref n =>
    simp only [coordsAt] at hc ⊢
    cases hg : h[n]? with
    | none => rw [hg] at hc; cases hc
    | some o =>
      rw [hg] at hc
      rw [hp.2 n (getElem?_lt hg), hg]
      exact hc
  | undefined => simp [coordsAt] at hc
  | null => simp [coordsAt] at hc
  | num j => simp [coordsAt] at hc
  | str s => simp [coordsAt] at hc
  | bool b => simp [coordsAt] at hc
  | arr xs => simp [coordsAt] at hc

/-- Rule 2 of the contract as the code executes it: a Point-shaped
first argument comes back unchanged, by reference, with no allocation. -/
theorem ensure_point {h : Heap} {item : JSVal} (hP : IsPoint h item = true)
    (rest : List JSVal) : Ensure h (item :: rest) = (h, item) := by
  have ht : truthy item = true := by
    cases item <;> simp_all [IsPoint, truthy]
  simp [Ensure, ht, hP]

/-- `Clone` on a reference never throws and allocates a copy of the
referenced object's properties. -/
theorem clone_ref (h : Heap) (n : ℕ) :
    Clone h (.ref n) = .ok (alloc h ⟨some (fieldX h n), some (fieldY h n)⟩) := rfl

theorem set_concat_length (h : Heap) (o o2 : PObj) :
    (h ++ [o]).set h.length o2 = h ++ [o2] := by
  induction h with
  | nil => rfl
  | cons a t ih =>
    show a :: (t ++ [o]).set t.length o2 = a :: (t ++ [o2])
    rw [ih]

theorem fieldX_of (h : Heap) {n : ℕ} {o : PObj} {w : JSVal} (hg : h[n]? = some o)
    (hx : o.x = some w) : fieldX h n = w := by
  simp [fieldX, hg, hx]

theorem fieldY_of (h : Heap) {n : ℕ} {o : PObj} {w : JSVal} (hg : h[n]? = some o)
    (hy : o.y = some w) : fieldY h n = w := by
  simp [fieldY, hg, hy]

/-- Symbolic execution of `Add` on two Point-shaped references: the
result is exactly the input heap extended with one fresh object holding
the componentwise sums (or differences), and the returned value is the
fresh reference.  Neither input object is touched. -/
theorem add_points {h : Heap} {na nb : ℕ} {oa ob : PObj} {ax ay bx byy : JNum}
    (hga : h[na]? = some oa) (hax : oa.x = some (.num ax)) (hay : oa.y = some (.num ay))
    (hgb : h[nb]? = some ob) (hbx : ob.x = some (.num bx)) (hby : ob.y = some (.num byy))
    (s : Bool) :
    Add h (.ref na) (.ref nb) s =
      .ok (h ++ [⟨some (.num (if s then jsub ax bx else jadd ax bx)),
                 some (.num (if s then jsub ay byy else jadd ay byy))⟩], .ref h.length) := by
  have hPa : IsPoint h (.ref na) = true := by simp [IsPoint, hga, hax, hay, isNumProp]
  have hlb : nb < h.length := getElem?_lt hgb
  have hnb : nb ≠ h.length := Nat.ne_of_lt hlb
  have hfax : fieldX h na = .num ax := fieldX_of h hga hax
  have hfay : fieldY h na = .num ay := fieldY_of h hga hay
  set o1 : PObj := ⟨some (.num ax), some (.num ay)⟩ with ho1
  have hgb2 : (h ++ [o1])[nb]? = some ob := (List.getElem?_append_left hlb).trans hgb
  have hPb : IsPoint (h ++ [o1]) (.ref nb) = true := by
    simp [IsPoint, hgb2, hbx, hby, isNumProp]
  have hg1 : (h ++ [o1])[h.length]? = some o1 := List.getElem?_concat_length h o1
  cases s with
  | false =>
    simp only [Add, ensure_point hPa, clone_ref, hfax, hfay, alloc]
    simp only [Bind.bind, Except.bind, if_false, Bool.false_eq_true]
    simp only [ensure_point hPb, getX, getY, setX, setY]
    simp only [fieldX_of _ hg1 rfl, fieldX_of _ hgb2 hbx, toNumber]
    simp only [setFieldX, hg1, set_concat_length]
    set o2 : PObj := ⟨some (.num (jadd ax bx)), some (.num ay)⟩ with ho2
    have hg2 : (h ++ [o2])[h.length]? = some o2 := List.getElem?_concat_length h o2
    have hgb3 : (h ++ [o2])[nb]? = some ob := (List.getElem?_append_left hlb).trans hgb
    simp only [fieldY_of _ hg2 rfl, fieldY_of _ hgb3 hby, toNumber]
    simp only [setFieldY, hg2, set_concat_length]
    rfl
  | true =>
    simp only [Add, ensure_point hPa, clone_ref, hfax, hfay, alloc]
    simp only [Bind.bind, Except.bind, if_true]
    simp only [ensure_point hPb, getX, getY, setX, setY]
    simp only [fieldX_of _ hg1 rfl, fieldX_of _ hgb2 hbx, toNumber]
    simp only [setFieldX, hg1, set_concat_length]
    set o2 : PObj := ⟨some (.num (jsub ax bx)), some (.num ay)⟩ with ho2
    have hg2 : (h ++ [o2])[h.length]? = some o2 := List.getElem?_concat_length h o2
    have hgb3 : (h ++ [o2])[nb]? = some ob := (List.getElem?_append_left hlb).trans hgb
    simp only [fieldY_of _ hg2 rfl, fieldY_of _ hgb3 hby, toNumber]
    simp only [setFieldY, hg2, set_concat_length]
    rfl

theorem length_setFieldX (h : Heap) (n : ℕ) (w : JSVal) :
    (setFieldX h n w).length = h.length := by
  unfold setFieldX
  cases hg : h[n]? <;> simp

theorem length_setFieldY (h : Heap) (n : ℕ) (w : JSVal) :
    (setFieldY h n w).length = h.length := by
  unfold setFieldY
  cases hg : h[n]? <;> simp

/-- Whatever the argument list, `Ensure` returns a reference to an
object present in the (possibly extended, never mutated) heap. -/
theorem ensure_shape (h : Heap) (args : List JSVal) :
    ∃ h1 k, Ensure h args = (h1, .ref k) ∧ preserves h h1 ∧ k < h1.length := by
  rcases args with _ | ⟨item, rest⟩
  · exact ⟨_, h.length, rfl, preserves_alloc h _, by simp⟩
  · by_cases hP : IsPoint h item = true
    · obtain ⟨k, hk⟩ : ∃ k, item = .ref k := by
        cases item <;> simp_all [IsPoint]
      subst hk
      obtain ⟨o, ho⟩ : ∃ o, h[k]? = some o := by
        simp only [IsPoint] at hP
        cases hg : h[k]? with
        | none => rw [hg] at hP; cases hP
        | some o => exact ⟨o, rfl⟩
      exact ⟨h, k, ensure_point hP rest, preserves_refl h, getElem?_lt ho⟩
    · by_cases ht : truthy item = false
      · refine ⟨h ++ [⟨some (.num (some 0)), some (.num (some 0))⟩], h.length, ?_,
          preserves_alloc h _, by simp⟩
        simp [Ensure, ht, Zero, alloc]
      · by_cases hA : isArrayOfLenGT1 item = true
        · refine ⟨h ++ [⟨some (jIndex item 0), some (jIndex item 1)⟩], h.length, ?_,
            preserves_alloc h _, by simp⟩
          simp [Ensure, ht, hP, hA, alloc]
        · by_cases hL : rest = []
          · subst hL
            refine ⟨h ++ [⟨some (.num (some 0)), some (.num (some 0))⟩], h.length, ?_,
              preserves_alloc h _, by simp⟩
            simp [Ensure, ht, hP, hA, Zero, alloc]
          · have hlen : (item :: rest).length > 1 := by
              cases rest with
              | nil => exact absurd rfl hL
              | cons c cs => simp
            refine ⟨h ++ [⟨some item, some item⟩], h.length, ?_,
              preserves_alloc h _, by simp⟩
            simp [Ensure, ht, hP, hA, hlen, hL, alloc]

/-- `Clone` never throws on any input other than `null`/`undefined`,
and always returns a fresh reference to a fresh allocation. -/
theorem clone_run (h : Heap) (v : JSVal) (hv1 : v ≠ .null) (hv2 : v ≠ .undefined) :
    ∃ o, Clone h v = .ok (h ++ [o], .ref h.length) := by
  cases v with
  | undefined => exact absurd rfl hv2
  | null => exact absurd rfl hv1
  | num j => exact ⟨_, rfl⟩
  | str s => exact ⟨_, rfl⟩
  | bool b => exact ⟨_, rfl⟩
  | arr xs => exact ⟨_, rfl⟩
  | ref n => exact ⟨_, rfl⟩

/-- Proof-layer name for the in-place update phase of `Add`
(`p1.x ∓= p2.x; p1.y ∓= p2.y`), as a total heap transformer on the
two reference indices involved. -/
def addMutate (h : Heap) (n m : ℕ) (sub : Bool) : Heap :=
  let h4 := setFieldX h n
    (.num (if sub then jsub (toNumber (fieldX h n)) (toNumber (fieldX h m))
           else jadd (toNumber (fieldX h n)) (toNumber (fieldX h m))))
  setFieldY h4 n
    (.num (if sub then jsub (toNumber (fieldY h4 n)) (toNumber (fieldY h4 m))
           else jadd (toNumber (fieldY h4 n)) (toNumber (fieldY h4 m))))

theorem preserves_addMutate {h h3 : Heap} (hp : preserves h h3) {n : ℕ}
    (hn : h.length ≤ n) (m : ℕ) (s : Bool) : preserves h (addMutate h3 n m s) := by
  unfold addMutate
  exact preserves_setFieldY_ge (preserves_setFieldX_ge hp hn _) hn _

theorem length_addMutate (h : Heap) (n m : ℕ) (s : Bool) :
    (addMutate h n m s).length = h.length := by
  unfold addMutate
  rw [length_setFieldY, length_setFieldX]

/-- `Add` never throws: on every pair of inputs it returns a fresh
reference into an extended heap whose pre-existing objects are all
unchanged. -/
theorem add_run (h : Heap) (a b : JSVal) (s : Bool) :
    ∃ h2 n, Add h a b s = .ok (h2, .ref n) ∧ preserves h h2 ∧ h.length ≤ n ∧ n < h2.length := by
  obtain ⟨h1, k, hE1, hp1, hk⟩ := ensure_shape h [a]
  set o1 : PObj := ⟨some (fieldX h1 k), some (fieldY h1 k)⟩ with ho1
  obtain ⟨h3, m, hE2, hp2, hm⟩ := ensure_shape (h1 ++ [o1]) [b]
  have hp13 : preserves h h3 := preserves_trans (preserves_trans hp1 (preserves_alloc h1 o1)) hp2
  have hlen3 : h1.length < h3.length := lt_of_lt_of_le (by simp) hp2.1
  refine ⟨addMutate h3 h1.length m s, h1.length, ?_, preserves_addMutate hp13 hp1.1 m s,
    hp1.1, ?_⟩
  · cases s <;>
      simp only [Add, hE1, clone_ref, alloc, Bind.bind, Except.bind, Bool.false_eq_true,
        if_false, if_true, hE2, getX, getY, setX, setY, addMutate, pure, Except.pure]
  · rw [length_addMutate]
    exact hlen3

/-- Proof-layer name for the update phase of `Scale`
(`p.x *= scale; p.y *= scale`). -/
def scaleMutate (h : Heap) (n : ℕ) (s : JNum) : Heap :=
  let h2 := setFieldX h n (.num (jmul (toNumber (fieldX h n)) s))
  setFieldY h2 n (.num (jmul (toNumber (fieldY h2 n)) s))

/-- Proof-layer name for the update phase of `Mirror`
(`if (mirrorX) p.x = -p.x; if (mirrorY) p.y = -p.y`). -/
def mirrorMutate (h : Heap) (n : ℕ) (mx my : Bool) : Heap :=
  let h2 := if mx then setFieldX h n (.num (jneg (toNumber (fieldX h n)))) else h
  if my then setFieldY h2 n (.num (jneg (toNumber (fieldY h2 n)))) else h2

theorem preserves_scaleMutate {h h3 : Heap} (hp : preserves h h3) {n : ℕ}
    (hn : h.length ≤ n) (s : JNum) : preserves h (scaleMutate h3 n s) := by
  unfold scaleMutate
  exact preserves_setFieldY_ge (preserves_setFieldX_ge hp hn _) hn _

theorem length_scaleMutate (h : Heap) (n : ℕ) (s : JNum) :
    (scaleMutate h n s).length = h.length := by
  unfold scaleMutate
  rw [length_setFieldY, length_setFieldX]

theorem preserves_mirrorMutate {h h3 : Heap} (hp : preserves h h3) {n : ℕ}
    (hn : h.length ≤ n) (mx my : Bool) : preserves h (mirrorMutate h3 n mx my) := by
  unfold mirrorMutate
  cases mx <;> cases my <;> simp only [if_true, if_false, Bool.false_eq_true]
  · exact hp
  · exact preserves_setFieldY_ge hp hn _
  · exact preserves_setFieldX_ge hp hn _
  · exact preserves_setFieldY_ge (preserves_setFieldX_ge hp hn _) hn _

theorem length_mirrorMutate (h : Heap) (n : ℕ) (mx my : Bool) :
    (mirrorMutate h n mx my).length = h.length := by
  unfold mirrorMutate
  cases mx <;> cases my <;>
    simp only [if_true, if_false, Bool.false_eq_true, length_setFieldX, length_setFieldY]

/-- `Scale` never throws and returns a fresh reference, leaving all
pre-existing objects unchanged. -/
theorem scale_run (h : Heap) (v : JSVal) (s : JNum) :
    ∃ h2 n, Scale h v s = .ok (h2, .ref n) ∧ preserves h h2 ∧ h.length ≤ n ∧ n < h2.length := by
  obtain ⟨h1, k, hE1, hp1, hk⟩ := ensure_shape h [v]
  set o1 : PObj := ⟨some (fieldX h1 k), some (fieldY h1 k)⟩ with ho1
  have hp2 : preserves h (h1 ++ [o1]) := preserves_trans hp1 (preserves_alloc h1 o1)
  refine ⟨scaleMutate (h1 ++ [o1]) h1.length s, h1.length, ?_,
    preserves_scaleMutate hp2 hp1.1 s, hp1.1, ?_⟩
  · simp only [Scale, hE1, clone_ref, alloc, Bind.bind, Except.bind, getX, getY,
      setX, setY, scaleMutate, pure, Except.pure]
  · rw [length_scaleMutate]
    simp

/-- `Mirror` never throws and returns a fresh reference, leaving all
pre-existing objects unchanged. -/
theorem mirror_run (h : Heap) (v : JSVal) (mx my : Bool) :
    ∃ h2 n, Mirror h v mx my = .ok (h2, .ref n) ∧ preserves h h2 ∧ h.length ≤ n ∧ n < h2.length := by
  obtain ⟨h1, k, hE1, hp1, hk⟩ := ensure_shape h [v]
  set o1 : PObj := ⟨some (fieldX h1 k), some (fieldY h1 k)⟩ with ho1
  have hp2 : preserves h (h1 ++ [o1]) := preserves_trans hp1 (preserves_alloc h1 o1)
  refine ⟨mirrorMutate (h1 ++ [o1]) h1.length mx my, h1.length, ?_,
    preserves_mirrorMutate hp2 hp1.1 mx my, hp1.1, ?_⟩
  · cases mx <;> cases my <;>
      simp only [Mirror, hE1, clone_ref, alloc, Bind.bind, Except.bind, Bool.false_eq_true,
        if_true, if_false, getX, getY, setX, setY, mirrorMutate, pure, Except.pure]
  · rw [length_mirrorMutate]
    simp

theorem coords_ref {h : Heap} {v : JSVal} {c : JNum × JNum}
    (hc : coordsAt h v = some c) : ∃ n, v = .ref n := by
  cases v with
  | ref n => exact ⟨n, rfl⟩
  | undefined => simp [coordsAt] at hc
  | null => simp [coordsAt] at hc
  | num j => simp [coordsAt] at hc
  | str s => simp [coordsAt] at hc
  | bool b => simp [coordsAt] at hc
  | arr xs => simp [coordsAt] at hc

theorem coords_fields {h : Heap} {n : ℕ} {jx jy : JNum}
    (hc : coordsAt h (.ref n) = some (jx, jy)) :
    ∃ o, h[n]? = some o ∧ o.x = some (.num jx) ∧ o.y = some (.num jy) := by
  simp only [coordsAt] at hc
  split at hc
  next o heq =>
    split at hc
    next jx2 jy2 hx hy =>
      simp only [Option.some.injEq, Prod.mk.injEq] at hc
      obtain ⟨rfl, rfl⟩ := hc
      exact ⟨o, heq, hx, hy⟩
    next => cases hc
  next => cases hc

/-- `Add` on two numeric-coordinate references: explicit result heap
and value (from `add_points` via `coordsAt`). -/
theorem add_coords {h : Heap} {a b : JSVal} {ax ay bx byy : JNum}
    (ha : coordsAt h a = some (ax, ay)) (hb : coordsAt h b = some (bx, byy)) (s : Bool) :
    Add h a b s =
      .ok (h ++ [⟨some (.num (if s then jsub ax bx else jadd ax bx)),
                 some (.num (if s then jsub ay byy else jadd ay byy))⟩], .ref h.length) := by
  obtain ⟨na, rfl⟩ := coords_ref ha
  obtain ⟨nb, rfl⟩ := coords_ref hb
  obtain ⟨oa, hga, hax, hay⟩ := coords_fields ha
  obtain ⟨ob, hgb, hbx, hby⟩ := coords_fields hb
  exact add_points hga hax hay hgb hbx hby s

/-- Reading back the coordinates of a just-allocated numeric point. -/
theorem coordsAt_concat (h : Heap) (jx jy : JNum) :
    coordsAt (h ++ [⟨some (.num jx), some (.num jy)⟩]) (.ref h.length) = some (jx, jy) := by
  simp only [coordsAt, List.getElem?_concat_length]

/-- Symbolic execution of the part of `Scale` after coercion: whenever
`Ensure` hands back a reference to a numeric-coordinate object, the
clone is scaled componentwise. -/
theorem scale_tail {h h1 : Heap} {v : JSVal} {k : ℕ} {ok2 : PObj} {j0 j1 : JNum}
    (hE : Ensure h [v] = (h1, .ref k)) (hg : h1[k]? = some ok2)
    (hx : ok2.x = some (.num j0)) (hy : ok2.y = some (.num j1)) (s : JNum) :
    Scale h v s =
      .ok (h1 ++ [⟨some (.num (jmul j0 s)), some (.num (jmul j1 s))⟩], .ref h1.length) := by
  have hfax : fieldX h1 k = .num j0 := fieldX_of h1 hg hx
  have hfay : fieldY h1 k = .num j1 := fieldY_of h1 hg hy
  set o1 : PObj := ⟨some (.num j0), some (.num j1)⟩ with ho1
  have hg1 : (h1 ++ [o1])[h1.length]? = some o1 := List.getElem?_concat_length h1 o1
  simp only [Scale, hE, clone_ref, hfax, hfay, alloc, Bind.bind, Except.bind,
    getX, getY, setX, setY]
  simp only [fieldX_of _ hg1 rfl, toNumber, setFieldX, hg1, set_concat_length]
  set o2 : PObj := ⟨some (.num (jmul j0 s)), some (.num j1)⟩ with ho2
  have hg2 : (h1 ++ [o2])[h1.length]? = some o2 := List.getElem?_concat_length h1 o2
  simp only [fieldY_of _ hg2 rfl, toNumber, setFieldY, hg2, set_concat_length]
  rfl

/-- Symbolic execution of the part of `Mirror` after coercion:
negation happens exactly on the requested axes. -/
theorem mirror_tail {h h1 : Heap} {v : JSVal} {k : ℕ} {ok2 : PObj} {j0 j1 : JNum}
    (hE : Ensure h [v] = (h1, .ref k)) (hg : h1[k]? = some ok2)
    (hx : ok2.x = some (.num j0)) (hy : ok2.y = some (.num j1)) (mx my : Bool) :
    Mirror h v mx my =
      .ok (h1 ++ [⟨some (.num (if mx then jneg j0 else j0)),
                 some (.num (if my then jneg j1 else j1))⟩], .ref h1.length) := by
  have hfax : fieldX h1 k = .num j0 := fieldX_of h1 hg hx
  have hfay : fieldY h1 k = .num j1 := fieldY_of h1 hg hy
  set o1 : PObj := ⟨some (.num j0), some (.num j1)⟩ with ho1
  have hg1 : (h1 ++ [o1])[h1.length]? = some o1 := List.getElem?_concat_length h1 o1
  cases mx with
  | false =>
    cases my with
    | false =>
      simp only [Mirror, hE, clone_ref, hfax, hfay, alloc, Bind.bind, Except.bind,
        Bool.false_eq_true, if_false, getX, getY, setX, setY, pure, Except.pure]
    | true =>
      simp only [Mirror, hE, clone_ref, hfax, hfay, alloc, Bind.bind, Except.bind,
        Bool.false_eq_true, if_false, if_true, getX, getY, setX, setY, pure, Except.pure]
      simp only [fieldY_of _ hg1 rfl, toNumber, setFieldY, hg1, set_concat_length]
  | true =>
    cases my with
    | false =>
      simp only [Mirror, hE, clone_ref, hfax, hfay, alloc, Bind.bind, Except.bind,
        Bool.false_eq_true, if_false, if_true, getX, getY, setX, setY, pure, Except.pure]
      simp only [fieldX_of _ hg1 rfl, toNumber, setFieldX, hg1, set_concat_length]
    | true =>
      simp only [Mirror, hE, clone_ref, hfax, hfay, alloc, Bind.bind, Except.bind,
        if_true, getX, getY, setX, setY, pure, Except.pure]
      simp only [fieldX_of _ hg1 rfl, toNumber, setFieldX, hg1, set_concat_length]
      set o2 : PObj := ⟨some (.num (jneg j0)), some (.num j1)⟩ with ho2
      have hg2 : (h1 ++ [o2])[h1.length]? = some o2 := List.getElem?_concat_length h1 o2
      simp only [fieldY_of _ hg2 rfl, toNumber, setFieldY, hg2, set_concat_length]

/-- `Clone` on a numeric-coordinate reference copies the values into a
fresh object. -/
theorem clone_coords {h : Heap} {v : JSVal} {jx jy : JNum}
    (hc : coordsAt h v = some (jx, jy)) :
    Clone h v = .ok (h ++ [⟨some (.num jx), some (.num jy)⟩], .ref h.length) := by
  obtain ⟨n, rfl⟩ := coords_ref hc
  obtain ⟨o, hg, hx, hy⟩ := coords_fields hc
  rw [clone_ref, fieldX_of h hg hx, fieldY_of h hg hy]
  rfl

/-- `Scale` on a numeric-coordinate reference. -/
theorem scale_coords {h : Heap} {v : JSVal} {ax ay : JNum}
    (hc : coordsAt h v = some (ax, ay)) (s : JNum) :
    Scale h v s =
      .ok (h ++ [⟨some (.num (jmul ax s)), some (.num (jmul ay s))⟩], .ref h.length) := by
  obtain ⟨n, rfl⟩ := coords_ref hc
  obtain ⟨o, hg, hx, hy⟩ := coords_fields hc
  have hP : IsPoint h (.ref n) = true := by simp [IsPoint, hg, hx, hy, isNumProp]
  exact scale_tail (ensure_point hP []) hg hx hy s

/-- `Mirror` on a numeric-coordinate reference. -/
theorem mirror_coords {h : Heap} {v : JSVal} {ax ay : JNum}
    (hc : coordsAt h v = some (ax, ay)) (mx my : Bool) :
    Mirror h v mx my =
      .ok (h ++ [⟨some (.num (if mx then jneg ax else ax)),
                 some (.num (if my then jneg ay else ay))⟩], .ref h.length) := by
  obtain ⟨n, rfl⟩ := coords_ref hc
  obtain ⟨o, hg, hx, hy⟩ := coords_fields hc
  have hP : IsPoint h (.ref n) = true := by simp [IsPoint, hg, hx, hy, isNumProp]
  exact mirror_tail (ensure_point hP []) hg hx hy mx my

/-! ### Branch lemmas for `Ensure` -/

theorem ensure_falsy {h : Heap} {item : JSVal} (ht : truthy item = false)
    (rest : List JSVal) : Ensure h (item :: rest) = Zero h := by
  simp [Ensure, ht]

theorem ensure_nil (h : Heap) : Ensure h [] = Zero h := rfl

theorem ensure_arr (h : Heap) (v0 v1 : JSVal) (vs : List JSVal) (rest : List JSVal) :
    Ensure h (.arr (v0 :: v1 :: vs) :: rest) = alloc h ⟨some v0, some v1⟩ := by
  simp [Ensure, truthy, IsPoint, isArrayOfLenGT1, jIndex]

theorem ensure_broadcast {h : Heap} {item : JSVal} (ht : truthy item = true)
    (hP : IsPoint h item = false) (hA : isArrayOfLenGT1 item = false)
    (r0 : JSVal) (rest : List JSVal) :
    Ensure h (item :: r0 :: rest) = alloc h ⟨some item, some item⟩ := by
  simp [Ensure, ht, hP, hA]

theorem ensure_single_fallback {h : Heap} {item : JSVal} (ht : truthy item = true)
    (hP : IsPoint h item = false) (hA : isArrayOfLenGT1 item = false) :
    Ensure h [item] = Zero h := by
  simp [Ensure, ht, hP, hA]

theorem finitePointB_iff {h : Heap} {v : JSVal} :
    finitePointB h v = true ↔ finiteCoords h v := by
  unfold finitePointB finiteCoords
  cases hc : coordsAt h v with
  | none => simp
  | some c =>
    obtain ⟨cx, cy⟩ := c
    cases cx <;> cases cy <;> simp

theorem bool_of_not_true {b : Bool} (hb : ¬ b = true) : b = false := by
  cases b with
  | false => rfl
  | true => exact absurd rfl hb

theorem isFiniteNumV_unpack {v : JSVal} (hv : isFiniteNumV v = true) :
    ∃ q : ℚ, v = .num (some q) := by
  cases v with
  | num j =>
    cases j with
    | none => cases hv
    | some q => exact ⟨q, rfl⟩
  | undefined => cases hv
  | null => cases hv
  | str s => cases hv
  | bool b => cases hv
  | arr xs => cases hv
  | ref n => cases hv

/-- `Zero` always produces a `(0, 0)` point. -/
theorem zero_coords (h : Heap) :
    Zero h = (h ++ [⟨some (.num (some 0)), some (.num (some 0))⟩], .ref h.length) := rfl

/-- On the good input set, `Ensure` emits a finite-coordinate point. -/
theorem ensure_good_finite {h : Heap} {args : List JSVal} (hg : EnsureGood h args = true) :
    finiteCoords (Ensure h args).1 (Ensure h args).2 := by
  rcases args with _ | ⟨item, rest⟩
  · rw [ensure_nil, zero_coords]
    exact ⟨0, 0, coordsAt_concat h _ _⟩
  · by_cases ht : truthy item = false
    · rw [ensure_falsy ht rest, zero_coords]
      exact ⟨0, 0, coordsAt_concat h _ _⟩
    · have ht2 : truthy item = true := by
        cases hb : truthy item with
        | false => exact absurd hb ht
        | true => rfl
      by_cases hP : IsPoint h item = true
      · rw [ensure_point hP rest]
        have hgood : finitePointB h item = true := by
          simpa [EnsureGood, ht, hP] using hg
        exact finitePointB_iff.mp hgood
      · have hP2 : IsPoint h item = false := bool_of_not_true hP
        by_cases hA : isArrayOfLenGT1 item = true
        · obtain ⟨v0, v1, vs, hitem⟩ : ∃ v0 v1 vs, item = .arr (v0 :: v1 :: vs) := by
            cases item with
            | arr xs =>
              cases xs with
              | nil => cases hA
              | cons v0 tl =>
                cases tl with
                | nil => cases hA
                | cons v1 tl2 => exact ⟨v0, v1, tl2, rfl⟩
            | undefined => cases hA
            | null => cases hA
            | num j => cases hA
            | str s => cases hA
            | bool b => cases hA
            | ref n => cases hA
          subst hitem
          have hgood : isFiniteNumV v0 = true ∧ isFiniteNumV v1 = true := by
            simpa [EnsureGood, ht, hP2, isArrayOfLenGT1, jIndex] using hg
          obtain ⟨q0, hq0⟩ := isFiniteNumV_unpack hgood.1
          obtain ⟨q1, hq1⟩ := isFiniteNumV_unpack hgood.2
          rw [ensure_arr, hq0, hq1]
          exact ⟨q0, q1, coordsAt_concat h _ _⟩
        · have hA2 : isArrayOfLenGT1 item = false := bool_of_not_true hA
          rcases rest with _ | ⟨r0, rest2⟩
          · rw [ensure_single_fallback ht2 hP2 hA2, zero_coords]
            exact ⟨0, 0, coordsAt_concat h _ _⟩
          · have hgood : isFiniteNumV item = true := by
              simpa [EnsureGood, ht, hP2, hA2] using hg
            obtain ⟨q, hq⟩ := isFiniteNumV_unpack hgood
            rw [ensure_broadcast ht2 hP2 hA2 r0 rest2, hq]
            exact ⟨q, q, coordsAt_concat h _ _⟩

/-- The code's `Ensure` satisfies the amended five-rule contract
exactly, on every heap and argument list. -/
theorem ensure_eq_contract_amended (h : Heap) (args : List JSVal) :
    Ensure h args = EnsureContractAmended h args := by
  rcases args with _ | ⟨item, rest⟩
  · rfl
  · by_cases ht : truthy item = false
    · simp [Ensure, EnsureContractAmended, ht]
    · by_cases hP : IsPoint h item = true
      · simp [Ensure, EnsureContractAmended, ht, hP]
      · cases item with
        | arr xs =>
          cases xs with
          | nil => simp [Ensure, EnsureContractAmended, ht, hP, isArrayOfLenGT1]
          | cons v0 tl =>
            cases tl with
            | nil => simp [Ensure, EnsureContractAmended, ht, hP, isArrayOfLenGT1]
            | cons v1 tl2 =>
              simp [Ensure, EnsureContractAmended, ht, hP, isArrayOfLenGT1, jIndex]
        | undefined => simp [Ensure, EnsureContractAmended, ht, hP, isArrayOfLenGT1]
        | null => simp [Ensure, EnsureContractAmended, ht, hP, isArrayOfLenGT1]
        | num j => simp [Ensure, EnsureContractAmended, ht, hP, isArrayOfLenGT1]
        | str s => simp [Ensure, EnsureContractAmended, ht, hP, isArrayOfLenGT1]
        | bool b => simp [Ensure, EnsureContractAmended, ht, hP, isArrayOfLenGT1]
        | ref n => simp [Ensure, EnsureContractAmended, ht, hP, isArrayOfLenGT1]

/-- `FromPolar` is a pure allocation of
`{x: radius * cos(angle), y: radius * sin(angle)}`. -/
theorem fromPolar_run (E : Externals) (h : Heap) (a r : JNum) :
    FromPolar E h a r =
      (h ++ [⟨some (.num (jmul r (Option.map E.cos a))),
             some (.num (jmul r (Option.map E.sin a)))⟩], .ref h.length) := rfl

theorem fromPolar_coords (E : Externals) (h : Heap) (a r : JNum) :
    coordsAt (FromPolar E h a r).1 (FromPolar E h a r).2 =
      some (jmul r (Option.map E.cos a), jmul r (Option.map E.sin a)) := by
  rw [fromPolar_run]
  exact coordsAt_concat h _ _

/-- `Rotate` never throws (given the spec's pure external utilities)
and returns a fresh reference, leaving pre-existing objects unchanged. -/
theorem rotate_run (E : Externals) (h : Heap) (p : JSVal) (d : JNum) (o : JSVal) :
    ∃ h2 n, Rotate E h p d o = .ok (h2, .ref n) ∧ preserves h h2 ∧ h.length ≤ n ∧ n < h2.length := by
  set po : PObj :=
    ⟨some (.num (jmul (some (E.PointDistance h o p))
        (Option.map E.cos (jadd (some (E.FromPointToRadians h p o)) (Option.map E.ToRadians d))))),
     some (.num (jmul (some (E.PointDistance h o p))
        (Option.map E.sin (jadd (some (E.FromPointToRadians h p o)) (Option.map E.ToRadians d)))))⟩
    with hpo
  obtain ⟨h2, n, hrun, hp2, hn, hlt⟩ := add_run (h ++ [po]) o (.ref h.length) false
  refine ⟨h2, n, ?_, preserves_trans (preserves_alloc h po) hp2, ?_, hlt⟩
  · show Add (h ++ [po]) o (.ref h.length) false = .ok (h2, .ref n)
    exact hrun
  · exact le_trans (by simp) hn

/-- Value-level execution of `Rotate` for a numeric-coordinate origin:
the result is `origin + (d·cos θ, d·sin θ)` where `θ` is the angle from
`Angle.FromPointToRadians` shifted by `Angle.ToRadians` of the rotation
angle and `d` is the `Measure.PointDistance`. -/
theorem rotate_coords (E : Externals) {h : Heap} (p : JSVal) {o : JSVal} {ox oy : ℚ} (dq : ℚ)
    (ho : coordsAt h o = some (some ox, some oy)) :
    ∃ h2, Rotate E h p (some dq) o = .ok (h2, .ref (h.length + 1)) ∧
      coordsAt h2 (.ref (h.length + 1)) =
        some (some (ox + E.PointDistance h o p *
                E.cos (E.FromPointToRadians h p o + E.ToRadians dq)),
              some (oy + E.PointDistance h o p *
                E.sin (E.FromPointToRadians h p o + E.ToRadians dq))) ∧
      preserves h h2 := by
  set dist := E.PointDistance h o p with hdist
  set th := E.FromPointToRadians h p o + E.ToRadians dq with hth
  set po : PObj := ⟨some (.num (some (dist * E.cos th))), some (.num (some (dist * E.sin th)))⟩
    with hpo
  have ho1 : coordsAt (h ++ [po]) o = some (some ox, some oy) :=
    coordsAt_mono (preserves_alloc h po) ho
  have hpolar : coordsAt (h ++ [po]) (.ref h.length) =
      some (some (dist * E.cos th), some (dist * E.sin th)) := coordsAt_concat h _ _
  have hadd := add_coords ho1 hpolar false
  refine ⟨(h ++ [po]) ++ [⟨some (.num (some (ox + dist * E.cos th))),
      some (.num (some (oy + dist * E.sin th)))⟩], ?_, ?_, ?_⟩
  · have hshape : Rotate E h p (some dq) o = Add (h ++ [po]) o (.ref h.length) false := by
      simp only [Rotate, FromPolar, alloc, jadd, jmul, Option.map, Option.bind, hpo, hdist, hth]
    rw [hshape, hadd]
    simp [jadd]
  · have := coordsAt_concat (h ++ [po])
      (some (ox + dist * E.cos th)) (some (oy + dist * E.sin th))
    simpa using this
  · exact preserves_trans (preserves_alloc h po)
      (preserves_trans (preserves_alloc (h ++ [po]) _)
        (preserves_refl _))

/-- `FromArc` never throws on any arc and leaves pre-existing objects
unchanged. -/
theorem fromArc_run (E : Externals) (h : Heap) (arc : IMakerPathArc) :
    ∃ h2 v1 v2, FromArc E h arc = .ok (h2, (v1, v2)) ∧ preserves h h2 := by
  set po1 : PObj :=
    ⟨some (.num (jmul arc.radius (Option.map E.cos (Option.map E.ToRadians arc.startAngle)))),
     some (.num (jmul arc.radius (Option.map E.sin (Option.map E.ToRadians arc.startAngle))))⟩
    with hpo1
  obtain ⟨h2, n, hrun1, hp1, hn1, hlt1⟩ := add_run (h ++ [po1]) arc.origin (.ref h.length) false
  set po2 : PObj :=
    ⟨some (.num (jmul arc.radius (Option.map E.cos (Option.map E.ToRadians arc.endAngle)))),
     some (.num (jmul arc.radius (Option.map E.sin (Option.map E.ToRadians arc.endAngle))))⟩
    with hpo2
  obtain ⟨h4, m, hrun2, hp2, hn2, hlt2⟩ := add_run (h2 ++ [po2]) arc.origin (.ref h2.length) false
  refine ⟨h4, .ref n, .ref m, ?_, ?_⟩
  · simp only [FromArc, getPointFromAngle, FromPolar, alloc, Bind.bind, Except.bind]
    rw [hrun1]
    simp only [Except.bind]
    rw [hrun2]
    rfl
  · exact preserves_trans (preserves_alloc h po1)
      (preserves_trans hp1 (preserves_trans (preserves_alloc h2 po2) hp2))

/-- Value-level execution of `FromArc` on a numeric-coordinate arc:
the ordered pair is the start point first and the end point second,
each equal to `origin + FromPolar(ToRadians(angle), radius)`; no
validation on the radius or the angles is involved. -/
theorem fromArc_coords (E : Externals) {h : Heap} {arc : IMakerPathArc} {ox oy : ℚ}
    {rq sa ea : ℚ} (ho : coordsAt h arc.origin = some (some ox, some oy))
    (hr : arc.radius = some rq) (hs : arc.startAngle = some sa) (he : arc.endAngle = some ea) :
    ∃ h2 p1 p2, FromArc E h arc = .ok (h2, (p1, p2)) ∧
      coordsAt h2 p1 = some (some (ox + rq * E.cos (E.ToRadians sa)),
        some (oy + rq * E.sin (E.ToRadians sa))) ∧
      coordsAt h2 p2 = some (some (ox + rq * E.cos (E.ToRadians ea)),
        some (oy + rq * E.sin (E.ToRadians ea))) ∧
      preserves h h2 := by
  set po1 : PObj := ⟨some (.num (some (rq * E.cos (E.ToRadians sa)))),
                    some (.num (some (rq * E.sin (E.ToRadians sa))))⟩ with hpo1
  have ho1 : coordsAt (h ++ [po1]) arc.origin = some (some ox, some oy) :=
    coordsAt_mono (preserves_alloc h po1) ho
  have hpolar1 : coordsAt (h ++ [po1]) (.ref h.length) =
      some (some (rq * E.cos (E.ToRadians sa)), some (rq * E.sin (E.ToRadians sa))) :=
    coordsAt_concat h _ _
  have hadd1 := add_coords ho1 hpolar1 false
  set s1 : PObj := ⟨some (.num (jadd (some ox) (some (rq * E.cos (E.ToRadians sa))))),
                   some (.num (jadd (some oy) (some (rq * E.sin (E.ToRadians sa)))))⟩ with hs1
  set hA : Heap := (h ++ [po1]) ++ [s1] with hhA
  have hpA : preserves h hA := by
    rw [hhA]
    exact preserves_trans (preserves_alloc h po1) (preserves_alloc (h ++ [po1]) s1)
  set po2 : PObj := ⟨some (.num (some (rq * E.cos (E.ToRadians ea)))),
                    some (.num (some (rq * E.sin (E.ToRadians ea))))⟩ with hpo2
  have ho2 : coordsAt (hA ++ [po2]) arc.origin = some (some ox, some oy) :=
    coordsAt_mono (preserves_trans hpA (preserves_alloc hA po2)) ho
  have hpolar2 : coordsAt (hA ++ [po2]) (.ref hA.length) =
      some (some (rq * E.cos (E.ToRadians ea)), some (rq * E.sin (E.ToRadians ea))) :=
    coordsAt_concat hA _ _
  have hadd2 := add_coords ho2 hpolar2 false
  set s2 : PObj := ⟨some (.num (jadd (some ox) (some (rq * E.cos (E.ToRadians ea))))),
                   some (.num (jadd (some oy) (some (rq * E.sin (E.ToRadians ea)))))⟩ with hs2
  refine ⟨(hA ++ [po2]) ++ [s2], .ref (h ++ [po1]).length, .ref (hA ++ [po2]).length, ?_, ?_, ?_, ?_⟩
  · simp only [FromArc, getPointFromAngle, FromPolar, alloc, Bind.bind, Except.bind,
      hr, hs, he, Option.map, jmul]
    rw [← hpo1, hadd1]
    simp only [Except.bind, Bool.false_eq_true, if_false]
    rw [← hs1, ← hhA, ← hpo2, hadd2]
    simp only [Except.bind, Bool.false_eq_true, if_false, pure, Except.pure, hs2]
  · have hc1 : coordsAt hA (.ref (h ++ [po1]).length) =
        some (jadd (some ox) (some (rq * E.cos (E.ToRadians sa))),
              jadd (some oy) (some (rq * E.sin (E.ToRadians sa)))) := by
      rw [hhA, hs1]
      exact coordsAt_concat (h ++ [po1]) _ _
    have hmono : coordsAt ((hA ++ [po2]) ++ [s2]) (.ref (h ++ [po1]).length) =
        some (jadd (some ox) (some (rq * E.cos (E.ToRadians sa))),
              jadd (some oy) (some (rq * E.sin (E.ToRadians sa)))) :=
      coordsAt_mono (preserves_trans (preserves_alloc hA po2)
        (preserves_alloc (hA ++ [po2]) s2)) hc1
    rw [hmono]
    simp [jadd]
  · have := coordsAt_concat (hA ++ [po2])
      (jadd (some ox) (some (rq * E.cos (E.ToRadians ea))))
      (jadd (some oy) (some (rq * E.sin (E.ToRadians ea))))
    rw [← hs2] at this
    rw [this]
    simp [jadd]
  · exact preserves_trans hpA (preserves_trans (preserves_alloc hA po2)
      (preserves_alloc (hA ++ [po2]) s2))

/-! ## Claim theorems -/

/-- A concrete instance of the external utilities, for witnesses. -/
def E0 : Externals :=
  ⟨fun q => q, fun q => q, fun q => q, fun _ _ _ => 0, fun _ _ _ => 0⟩

/-- A concrete one-object heap holding the point `(1, 2)`, for
witnesses. -/
def demoHeap : Heap := [⟨some (.num (some 1)), some (.num (some 2))⟩]

/-- C1 (counterexample): the five-rule contract read literally fails on
the code.  On the array `["a", "b"]` — an array of length two whose
elements are not numbers — the spec's rule 3 does not apply, no second
argument is supplied, so the contract's rule 5 yields the zero point;
but `Ensure` tests only `Array.isArray(item) && item.length > 1` and
returns `{x: "a", y: "b"}`. -/
theorem ensure_contract_literal_fails :
    Ensure [] [.arr [.str "a", .str "b"]] ≠ EnsureContract [] [.arr [.str "a", .str "b"]] := by
  intro hcontra
  have e1 : Ensure [] [.arr [.str "a", .str "b"]] =
      ([⟨some (.str "a"), some (.str "b")⟩], .ref 0) := rfl
  have e2 : EnsureContract [] [.arr [.str "a", .str "b"]] =
      ([⟨some (.num (some 0)), some (.num (some 0))⟩], .ref 0) := rfl
  rw [e1, e2] at hcontra
  simp at hcontra

/-- C1 (amended): `Ensure` implements the five-rule coercion contract
in precedence order, with rule 3's guard amended to what the code
tests — any array of length at least two, whose first two elements are
taken verbatim (they need not be numbers): (1) falsy → `(0,0)`;
(2) Point-shaped → returned by reference; (3) array of length ≥ 2 →
`{x: item[0], y: item[1]}`, further elements ignored; (4) second
positional argument supplied → both coordinates equal the first
argument; (5) otherwise `(0,0)`. -/
theorem ensure_five_rule_contract :
    ∀ (h : Heap) (args : List JSVal), Ensure h args = EnsureContractAmended h args :=
  ensure_eq_contract_amended

/-- C3 (counterexample): `Clone` does raise on malformed input — in
JavaScript, `Clone(null)` and `Clone(undefined)` throw a `TypeError`
reading `point.x`, contradicting "no exceptions are raised by this
core under any input ... in particular Clone on arbitrary inputs". -/
theorem clone_nullish_throws :
    Clone [] JSVal.null = .error () ∧ Clone [] JSVal.undefined = .error () := ⟨rfl, rfl⟩

/-- C3 (amended): no operation of the core ever raises, except `Clone`
(which performs no coercion): `Add`, `Subtract`, `Scale`, `Mirror`,
`Rotate` and `FromArc` always succeed on every input, with malformed
inputs resolved by `Ensure`'s silent fallbacks; `Clone` succeeds on
every input other than `null`/`undefined`, and throws exactly on
those two. -/
theorem no_exceptions_except_clone_nullish :
    (∀ (h : Heap) (a b : JSVal) (s : Bool), ∃ h2 r, Add h a b s = .ok (h2, r)) ∧
    (∀ (h : Heap) (a b : JSVal), ∃ h2 r, Subtract h a b = .ok (h2, r)) ∧
    (∀ (h : Heap) (v : JSVal) (s : JNum), ∃ h2 r, Scale h v s = .ok (h2, r)) ∧
    (∀ (h : Heap) (v : JSVal) (mx my : Bool), ∃ h2 r, Mirror h v mx my = .ok (h2, r)) ∧
    (∀ (E : Externals) (h : Heap) (p : JSVal) (d : JNum) (o : JSVal),
      ∃ h2 r, Rotate E h p d o = .ok (h2, r)) ∧
    (∀ (E : Externals) (h : Heap) (arc : IMakerPathArc),
      ∃ h2 p1 p2, FromArc E h arc = .ok (h2, (p1, p2))) ∧
    (∀ (h : Heap) (v : JSVal), v ≠ .null → v ≠ .undefined → ∃ h2 r, Clone h v = .ok (h2, r)) ∧
    (∀ h : Heap, Clone h .null = .error () ∧ Clone h .undefined = .error ()) := by
  refine ⟨?_, ?_, ?_, ?_, ?_, ?_, ?_, ?_⟩
  · intro h a b s
    obtain ⟨h2, n, hrun, _, _, _⟩ := add_run h a b s
    exact ⟨h2, .ref n, hrun⟩
  · intro h a b
    obtain ⟨h2, n, hrun, _, _, _⟩ := add_run h a b true
    exact ⟨h2, .ref n, hrun⟩
  · intro h v s
    obtain ⟨h2, n, hrun, _, _, _⟩ := scale_run h v s
    exact ⟨h2, .ref n, hrun⟩
  · intro h v mx my
    obtain ⟨h2, n, hrun, _, _, _⟩ := mirror_run h v mx my
    exact ⟨h2, .ref n, hrun⟩
  · intro E h p d o
    obtain ⟨h2, n, hrun, _, _, _⟩ := rotate_run E h p d o
    exact ⟨h2, .ref n, hrun⟩
  · intro E h arc
    obtain ⟨h2, v1, v2, hrun, _⟩ := fromArc_run E h arc
    exact ⟨h2, v1, v2, hrun⟩
  · intro h v hv1 hv2
    obtain ⟨o, hrun⟩ := clone_run h v hv1 hv2
    exact ⟨h ++ [o], .ref h.length, hrun⟩
  · intro h
    exact ⟨rfl, rfl⟩

/-- C3 (witness): the amended theorem applied at concrete inputs,
discharging the `Clone` hypotheses at the number `5`. -/
theorem no_exceptions_except_clone_nullish_witness :
    (JSVal.num (some 5) ≠ JSVal.null ∧ JSVal.num (some 5) ≠ JSVal.undefined) ∧
    (∃ h2 r, Clone [] (JSVal.num (some 5)) = .ok (h2, r)) ∧
    (∃ h2 r, Add [] JSVal.null (.str "x") true = .ok (h2, r)) := by
  refine ⟨⟨?_, ?_⟩, ?_, ?_⟩
  · intro hh; cases hh
  · intro hh; cases hh
  · exact no_exceptions_except_clone_nullish.2.2.2.2.2.2.1 [] (.num (some 5))
      (by intro hh; cases hh) (by intro hh; cases hh)
  · exact no_exceptions_except_clone_nullish.1 [] JSVal.null (.str "x") true

/-- C4: `Ensure` on a Point-shaped input returns the exact same
reference it was given, with the heap untouched — no clone, no
allocation. -/
theorem ensure_point_identity (h : Heap) (item : JSVal) (rest : List JSVal)
    (hP : IsPoint h item = true) : Ensure h (item :: rest) = (h, item) :=
  ensure_point hP rest

/-- C4 (witness): on the heap holding `{x: 1, y: 2}` at reference 0,
`Ensure` hands back reference 0 itself and the heap unchanged. -/
theorem ensure_point_identity_witness :
    IsPoint demoHeap (.ref 0) = true ∧
    Ensure demoHeap [.ref 0] = (demoHeap, .ref 0) :=
  ⟨rfl, ensure_point_identity demoHeap (.ref 0) [] rfl⟩

/-- C7: `Subtract(a, b)` is literally `Add(a, b, subtract = true)` — on
every heap and every pair of inputs the two calls coincide. -/
theorem subtract_is_add_true :
    ∀ (h : Heap) (a b : JSVal), Subtract h a b = Add h a b true :=
  fun _ _ _ => rfl

theorem fresh_ne {h : Heap} {n : ℕ} (hn : h.length ≤ n) {v : JSVal} (hv : validV h v) :
    JSVal.ref n ≠ v := by
  intro he
  have := hv n he.symm
  omega

/-- C5: every constructing/transforming operation (`Zero`, `Clone`,
`Add`, `Subtract`, `Scale`, `Mirror`, `Rotate`, `FromPolar`) leaves
every pre-existing heap object — in particular its input Point(s) —
unchanged, and returns a freshly allocated reference distinct from
every reference valid before the call. -/
theorem ops_fresh_no_mutation :
    (∀ h : Heap, preserves h (Zero h).1 ∧ (Zero h).2 = .ref h.length) ∧
    (∀ (h : Heap) (v : JSVal) (h2 : Heap) (r : JSVal), Clone h v = .ok (h2, r) →
      preserves h h2 ∧ r = .ref h.length ∧ (validV h v → r ≠ v)) ∧
    (∀ (h : Heap) (a b : JSVal) (s : Bool), ∃ h2 n, Add h a b s = .ok (h2, .ref n) ∧
      preserves h h2 ∧ h.length ≤ n ∧ (validV h a → .ref n ≠ a) ∧ (validV h b → .ref n ≠ b)) ∧
    (∀ (h : Heap) (a b : JSVal), ∃ h2 n, Subtract h a b = .ok (h2, .ref n) ∧
      preserves h h2 ∧ h.length ≤ n ∧ (validV h a → .ref n ≠ a) ∧ (validV h b → .ref n ≠ b)) ∧
    (∀ (h : Heap) (v : JSVal) (s : JNum), ∃ h2 n, Scale h v s = .ok (h2, .ref n) ∧
      preserves h h2 ∧ h.length ≤ n ∧ (validV h v → .ref n ≠ v)) ∧
    (∀ (h : Heap) (v : JSVal) (mx my : Bool), ∃ h2 n, Mirror h v mx my = .ok (h2, .ref n) ∧
      preserves h h2 ∧ h.length ≤ n ∧ (validV h v → .ref n ≠ v)) ∧
    (∀ (E : Externals) (h : Heap) (p : JSVal) (d : JNum) (o : JSVal),
      ∃ h2 n, Rotate E h p d o = .ok (h2, .ref n) ∧ preserves h h2 ∧ h.length ≤ n ∧
        (validV h p → .ref n ≠ p) ∧ (validV h o → .ref n ≠ o)) ∧
    (∀ (E : Externals) (h : Heap) (a r : JNum),
      preserves h (FromPolar E h a r).1 ∧ (FromPolar E h a r).2 = .ref h.length) := by
  refine ⟨?_, ?_, ?_, ?_, ?_, ?_, ?_, ?_⟩
  · intro h
    exact ⟨preserves_alloc h _, rfl⟩
  · intro h v h2 r hok
    by_cases hv1 : v = .null
    · subst hv1
      simp [Clone, getX, Bind.bind, Except.bind] at hok
    · by_cases hv2 : v = .undefined
      · subst hv2
        simp [Clone, getX, Bind.bind, Except.bind] at hok
      · obtain ⟨o, hrun⟩ := clone_run h v hv1 hv2
        rw [hrun] at hok
        obtain ⟨h2eq, req⟩ : h ++ [o] = h2 ∧ JSVal.ref h.length = r := by
          simpa using hok
        subst h2eq
        subst req
        exact ⟨preserves_alloc h o, rfl, fun hv => fresh_ne (le_refl _) hv⟩
  · intro h a b s
    obtain ⟨h2, n, hrun, hp, hn, hlt⟩ := add_run h a b s
    exact ⟨h2, n, hrun, hp, hn, fun hv => fresh_ne hn hv, fun hv => fresh_ne hn hv⟩
  · intro h a b
    obtain ⟨h2, n, hrun, hp, hn, hlt⟩ := add_run h a b true
    exact ⟨h2, n, hrun, hp, hn, fun hv => fresh_ne hn hv, fun hv => fresh_ne hn hv⟩
  · intro h v s
    obtain ⟨h2, n, hrun, hp, hn, hlt⟩ := scale_run h v s
    exact ⟨h2, n, hrun, hp, hn, fun hv => fresh_ne hn hv⟩
  · intro h v mx my
    obtain ⟨h2, n, hrun, hp, hn, hlt⟩ := mirror_run h v mx my
    exact ⟨h2, n, hrun, hp, hn, fun hv => fresh_ne hn hv⟩
  · intro E h p d o
    obtain ⟨h2, n, hrun, hp, hn, hlt⟩ := rotate_run E h p d o
    exact ⟨h2, n, hrun, hp, hn, fun hv => fresh_ne hn hv, fun hv => fresh_ne hn hv⟩
  · intro E h a r
    exact ⟨preserves_alloc h _, rfl⟩

/-- C5 (witness): the `Clone` part applied on the one-point heap,
discharging its hypothesis with the concrete run. -/
theorem ops_fresh_no_mutation_witness :
    Clone demoHeap (.ref 0) =
      .ok (demoHeap ++ [⟨some (.num (some 1)), some (.num (some 2))⟩], .ref 1) ∧
    (preserves demoHeap (demoHeap ++ [⟨some (.num (some 1)), some (.num (some 2))⟩]) ∧
      (JSVal.ref 1 : JSVal) = .ref demoHeap.length ∧
      (validV demoHeap (.ref 0) → (JSVal.ref 1 : JSVal) ≠ .ref 0)) :=
  by
  constructor
  · rfl
  · exact ops_fresh_no_mutation.2.1 demoHeap (.ref 0) _ _ rfl

/-- C6: `Rotate(p, d, o)` is exactly
`Add(o, FromPolar(FromPointToRadians(p, o) + ToRadians(d), PointDistance(o, p)))`:
first conjunct is the structural composition through the external
utilities, second computes the resulting coordinates for a
numeric-coordinate origin. -/
theorem rotate_polar_composition :
    (∀ (E : Externals) (h : Heap) (p : JSVal) (d : JNum) (o : JSVal),
      Rotate E h p d o =
        Add (FromPolar E h (jadd (some (E.FromPointToRadians h p o)) (Option.map E.ToRadians d))
              (some (E.PointDistance h o p))).1 o
            (FromPolar E h (jadd (some (E.FromPointToRadians h p o)) (Option.map E.ToRadians d))
              (some (E.PointDistance h o p))).2 false) ∧
    (∀ (E : Externals) (h : Heap) (p o : JSVal) (ox oy dq : ℚ),
      coordsAt h o = some (some ox, some oy) →
      ∃ h2, Rotate E h p (some dq) o = .ok (h2, .ref (h.length + 1)) ∧
        coordsAt h2 (.ref (h.length + 1)) =
          some (some (ox + E.PointDistance h o p *
                  E.cos (E.FromPointToRadians h p o + E.ToRadians dq)),
                some (oy + E.PointDistance h o p *
                  E.sin (E.FromPointToRadians h p o + E.ToRadians dq)))) := by
  constructor
  · intro E h p d o
    rfl
  · intro E h p o ox oy dq ho
    obtain ⟨h2, hrun, hc, _⟩ := rotate_coords E p dq ho
    exact ⟨h2, hrun, hc⟩

/-- C6 (witness): the coordinate part applied with concrete external
utilities on the one-point heap. -/
theorem rotate_polar_composition_witness :
    coordsAt demoHeap (.ref 0) = some (some 1, some 2) ∧
    ∃ h2, Rotate E0 demoHeap .null (some 3) (.ref 0) = .ok (h2, .ref (demoHeap.length + 1)) ∧
      coordsAt h2 (.ref (demoHeap.length + 1)) =
        some (some (1 + E0.PointDistance demoHeap (.ref 0) .null *
                E0.cos (E0.FromPointToRadians demoHeap .null (.ref 0) + E0.ToRadians 3)),
              some (2 + E0.PointDistance demoHeap (.ref 0) .null *
                E0.sin (E0.FromPointToRadians demoHeap .null (.ref 0) + E0.ToRadians 3))) :=
  ⟨rfl, rotate_polar_composition.2 E0 demoHeap .null (.ref 0) 1 2 3 rfl⟩

/-- C8: subtracting `b` and then adding `b` back is the identity on
`a`'s coordinates, exactly, over the rational model of the spec's real
arithmetic. -/
theorem add_subtract_roundtrip (h : Heap) (a b : JSVal) (ax ay bx byy : ℚ)
    (ha : coordsAt h a = some (some ax, some ay))
    (hb : coordsAt h b = some (some bx, some byy)) :
    ∃ h2 s h3 r, Subtract h a b = .ok (h2, s) ∧ Add h2 s b false = .ok (h3, r) ∧
      coordsAt h3 r = some (some ax, some ay) := by
  have hsub : Subtract h a b =
      .ok (h ++ [⟨some (.num (some (ax - bx))), some (.num (some (ay - byy)))⟩],
        .ref h.length) := by
    have := add_coords ha hb true
    simpa [Subtract, jsub] using this
  set d : PObj := ⟨some (.num (some (ax - bx))), some (.num (some (ay - byy)))⟩ with hd
  have hds : coordsAt (h ++ [d]) (.ref h.length) = some (some (ax - bx), some (ay - byy)) := by
    rw [hd]
    exact coordsAt_concat h _ _
  have hbs : coordsAt (h ++ [d]) b = some (some bx, some byy) :=
    coordsAt_mono (preserves_alloc h d) hb
  have hadd := add_coords hds hbs false
  refine ⟨h ++ [d], .ref h.length, _, .ref (h ++ [d]).length, hsub, hadd, ?_⟩
  simp only [Bool.false_eq_true, if_false]
  have := coordsAt_concat (h ++ [d])
    (jadd (some (ax - bx)) (some bx)) (jadd (some (ay - byy)) (some byy))
  rw [this]
  simp [jadd]

/-- C8 (witness): round trip on the concrete point `(1, 2)` with
itself as `b`. -/
theorem add_subtract_roundtrip_witness :
    coordsAt demoHeap (.ref 0) = some (some 1, some 2) ∧
    ∃ h2 s h3 r, Subtract demoHeap (.ref 0) (.ref 0) = .ok (h2, s) ∧
      Add h2 s (.ref 0) false = .ok (h3, r) ∧ coordsAt h3 r = some (some 1, some 2) :=
  ⟨rfl, add_subtract_roundtrip demoHeap (.ref 0) (.ref 0) 1 2 1 2 rfl rfl⟩

/-- C9: `FromArc` returns the ordered pair start-point-first, each
endpoint equal to `origin + FromPolar(ToRadians(angle), radius)`; the
statement quantifies over every radius and angle pair, so no
validation (`startAngle ≠ endAngle`, `radius ≥ 0`) is involved. -/
theorem fromArc_ordered_endpoints (E : Externals) (h : Heap) (arc : IMakerPathArc)
    (ox oy rq sa ea : ℚ) (ho : coordsAt h arc.origin = some (some ox, some oy))
    (hr : arc.radius = some rq) (hs : arc.startAngle = some sa) (he : arc.endAngle = some ea) :
    ∃ h2 p1 p2, FromArc E h arc = .ok (h2, (p1, p2)) ∧
      coordsAt h2 p1 = some (some (ox + rq * E.cos (E.ToRadians sa)),
        some (oy + rq * E.sin (E.ToRadians sa))) ∧
      coordsAt h2 p2 = some (some (ox + rq * E.cos (E.ToRadians ea)),
        some (oy + rq * E.sin (E.ToRadians ea))) := by
  obtain ⟨h2, p1, p2, hrun, hc1, hc2, _⟩ := fromArc_coords E ho hr hs he
  exact ⟨h2, p1, p2, hrun, hc1, hc2⟩

/-- C9 (witness): the arc with origin `(1, 2)`, radius 5, degenerate
equal angles 0 and 0 — also exercising the absence of validation. -/
theorem fromArc_ordered_endpoints_witness :
    coordsAt demoHeap (IMakerPathArc.mk (.ref 0) (some 5) (some 0) (some 0)).origin =
      some (some 1, some 2) ∧
    ∃ h2 p1 p2, FromArc E0 demoHeap (IMakerPathArc.mk (.ref 0) (some 5) (some 0) (some 0)) =
        .ok (h2, (p1, p2)) ∧
      coordsAt h2 p1 = some (some (1 + 5 * E0.cos (E0.ToRadians 0)),
        some (2 + 5 * E0.sin (E0.ToRadians 0))) ∧
      coordsAt h2 p2 = some (some (1 + 5 * E0.cos (E0.ToRadians 0)),
        some (2 + 5 * E0.sin (E0.ToRadians 0))) :=
  ⟨rfl, fromArc_ordered_endpoints E0 demoHeap _ 1 2 5 0 0 rfl rfl rfl rfl⟩

/-- C10: `Mirror` and `Scale` coerce their point argument through
`Ensure` before operating, although the interface table declares a
Point-only input: on every absent/falsy input they behave as on the
origin `(0, 0)`, on every 2-element numeric sequence `[a, b]` they
behave as on the point `(a, b)`, and they never fail on such inputs. -/
theorem mirror_scale_coerce :
    (∀ (h : Heap) (v : JSVal) (s : JNum), truthy v = false →
      ∃ h2 n, Scale h v s = .ok (h2, .ref n) ∧
        coordsAt h2 (.ref n) = some (jmul (some 0) s, jmul (some 0) s)) ∧
    (∀ (h : Heap) (ja jb s : JNum),
      ∃ h2 n, Scale h (.arr [.num ja, .num jb]) s = .ok (h2, .ref n) ∧
        coordsAt h2 (.ref n) = some (jmul ja s, jmul jb s)) ∧
    (∀ (h : Heap) (v : JSVal) (mx my : Bool), truthy v = false →
      ∃ h2 n, Mirror h v mx my = .ok (h2, .ref n) ∧
        coordsAt h2 (.ref n) = some (some 0, some 0)) ∧
    (∀ (h : Heap) (ja jb : JNum) (mx my : Bool),
      ∃ h2 n, Mirror h (.arr [.num ja, .num jb]) mx my = .ok (h2, .ref n) ∧
        coordsAt h2 (.ref n) =
          some (if mx then jneg ja else ja, if my then jneg jb else jb)) := by
  refine ⟨?_, ?_, ?_, ?_⟩
  · intro h v s ht
    have hE : Ensure h [v] =
        (h ++ [⟨some (.num (some 0)), some (.num (some 0))⟩], .ref h.length) := by
      rw [ensure_falsy ht [], zero_coords]
    have hrun := scale_tail hE (List.getElem?_concat_length h _) rfl rfl s
    exact ⟨_, _, hrun, coordsAt_concat _ _ _⟩
  · intro h ja jb s
    have hE : Ensure h [.arr [.num ja, .num jb]] =
        (h ++ [⟨some (.num ja), some (.num jb)⟩], .ref h.length) := by
      rw [ensure_arr h (.num ja) (.num jb) [] []]
      rfl
    have hrun := scale_tail hE (List.getElem?_concat_length h _) rfl rfl s
    exact ⟨_, _, hrun, coordsAt_concat _ _ _⟩
  · intro h v mx my ht
    have hE : Ensure h [v] =
        (h ++ [⟨some (.num (some 0)), some (.num (some 0))⟩], .ref h.length) := by
      rw [ensure_falsy ht [], zero_coords]
    have hrun := mirror_tail hE (List.getElem?_concat_length h _) rfl rfl mx my
    refine ⟨_, _, hrun, ?_⟩
    have hcc := coordsAt_concat (h ++ [⟨some (.num (some 0)), some (.num (some 0))⟩])
      (if mx then jneg (some 0) else some 0) (if my then jneg (some 0) else some 0)
    rw [hcc]
    cases mx <;> cases my <;> simp [jneg]
  · intro h ja jb mx my
    have hE : Ensure h [.arr [.num ja, .num jb]] =
        (h ++ [⟨some (.num ja), some (.num jb)⟩], .ref h.length) := by
      rw [ensure_arr h (.num ja) (.num jb) [] []]
      rfl
    have hrun := mirror_tail hE (List.getElem?_concat_length h _) rfl rfl mx my
    exact ⟨_, _, hrun, coordsAt_concat _ _ _⟩

/-- C10 (witness): `Scale(null, 3)` behaves as scaling the origin and
`Mirror([4, 7], true, false)` as mirroring the point `(4, 7)`. -/
theorem mirror_scale_coerce_witness :
    (truthy JSVal.null = false ∧
      ∃ h2 n, Scale [] JSVal.null (some 3) = .ok (h2, .ref n) ∧
        coordsAt h2 (.ref n) = some (jmul (some 0) (some 3), jmul (some 0) (some 3))) ∧
    (truthy JSVal.undefined = false ∧
      ∃ h2 n, Mirror [] JSVal.undefined true false = .ok (h2, .ref n) ∧
        coordsAt h2 (.ref n) = some (some 0, some 0)) ∧
    (∃ h2 n, Mirror [] (.arr [.num (some 4), .num (some 7)]) true false = .ok (h2, .ref n) ∧
      coordsAt h2 (.ref n) =
        some (if true then jneg (some 4) else some 4, if false then jneg (some 7) else some 7)) :=
  ⟨⟨rfl, mirror_scale_coerce.1 [] JSVal.null (some 3) rfl⟩,
   ⟨rfl, mirror_scale_coerce.2.2.1 [] JSVal.undefined true false rfl⟩,
   mirror_scale_coerce.2.2.2 [] (some 4) (some 7) true false⟩

/-- C2 (counterexample): `Ensure` can emit a Point whose fields are not
numbers at all: on the array `[undefined, undefined]` the array branch
fires (only the length is tested) and the produced object has
`undefined` in both coordinates — so "both fields are defined, finite
real numbers for every possible input" fails, already at `Ensure`. -/
theorem ensure_invariant_fails :
    Ensure [] [.arr [.undefined, .undefined]] = ([⟨some .undefined, some .undefined⟩], .ref 0) ∧
    coordsAt [⟨some JSVal.undefined, some JSVal.undefined⟩] (.ref 0) = none :=
  ⟨rfl, rfl⟩

/-- C2 (amended): every operation emits a Point with defined, finite
numeric coordinates provided its numeric ingredients are finite and its
point inputs are themselves finite-coordinate Points — for `Ensure`,
provided the argument list lies in the good set `EnsureGood` (falsy
input, finite Point, array with finite numbers in the first two slots,
finite broadcast scalar, or the final fallback); on arbitrary inputs
the invariant fails (see the counterexample). -/
theorem outputs_finite_on_good_inputs :
    (∀ h : Heap, finiteCoords (Zero h).1 (Zero h).2) ∧
    (∀ (h : Heap) (args : List JSVal), EnsureGood h args = true →
      finiteCoords (Ensure h args).1 (Ensure h args).2) ∧
    (∀ (h : Heap) (v : JSVal), finiteCoords h v →
      ∃ h2 r, Clone h v = .ok (h2, r) ∧ finiteCoords h2 r) ∧
    (∀ (h : Heap) (a b : JSVal) (s : Bool), finiteCoords h a → finiteCoords h b →
      ∃ h2 r, Add h a b s = .ok (h2, r) ∧ finiteCoords h2 r) ∧
    (∀ (h : Heap) (a b : JSVal), finiteCoords h a → finiteCoords h b →
      ∃ h2 r, Subtract h a b = .ok (h2, r) ∧ finiteCoords h2 r) ∧
    (∀ (h : Heap) (v : JSVal) (q : ℚ), finiteCoords h v →
      ∃ h2 r, Scale h v (some q) = .ok (h2, r) ∧ finiteCoords h2 r) ∧
    (∀ (h : Heap) (v : JSVal) (mx my : Bool), finiteCoords h v →
      ∃ h2 r, Mirror h v mx my = .ok (h2, r) ∧ finiteCoords h2 r) ∧
    (∀ (E : Externals) (h : Heap) (p : JSVal) (dq : ℚ) (o : JSVal), finiteCoords h o →
      ∃ h2 r, Rotate E h p (some dq) o = .ok (h2, r) ∧ finiteCoords h2 r) ∧
    (∀ (E : Externals) (h : Heap) (aq rq : ℚ),
      finiteCoords (FromPolar E h (some aq) (some rq)).1
        (FromPolar E h (some aq) (some rq)).2) ∧
    (∀ (E : Externals) (h : Heap) (arc : IMakerPathArc) (ox oy rq sa ea : ℚ),
      coordsAt h arc.origin = some (some ox, some oy) → arc.radius = some rq →
      arc.startAngle = some sa → arc.endAngle = some ea →
      ∃ h2 p1 p2, FromArc E h arc = .ok (h2, (p1, p2)) ∧
        finiteCoords h2 p1 ∧ finiteCoords h2 p2) := by
  refine ⟨?_, ?_, ?_, ?_, ?_, ?_, ?_, ?_, ?_, ?_⟩
  · intro h
    rw [zero_coords]
    exact ⟨0, 0, coordsAt_concat h _ _⟩
  · intro h args hg
    exact ensure_good_finite hg
  · intro h v hv
    obtain ⟨qx, qy, hc⟩ := hv
    exact ⟨_, _, clone_coords hc, qx, qy, coordsAt_concat h _ _⟩
  · intro h a b s ha hb
    obtain ⟨ax, ay, hca⟩ := ha
    obtain ⟨bx, byy, hcb⟩ := hb
    refine ⟨_, _, add_coords hca hcb s, ?_⟩
    cases s with
    | false => exact ⟨ax + bx, ay + byy, by simpa [jadd] using coordsAt_concat h _ _⟩
    | true => exact ⟨ax - bx, ay - byy, by simpa [jsub] using coordsAt_concat h _ _⟩
  · intro h a b ha hb
    obtain ⟨ax, ay, hca⟩ := ha
    obtain ⟨bx, byy, hcb⟩ := hb
    refine ⟨_, _, add_coords hca hcb true, ?_⟩
    exact ⟨ax - bx, ay - byy, by simpa [jsub] using coordsAt_concat h _ _⟩
  · intro h v q hv
    obtain ⟨qx, qy, hc⟩ := hv
    refine ⟨_, _, scale_coords hc (some q), ?_⟩
    exact ⟨qx * q, qy * q, by simpa [jmul] using coordsAt_concat h _ _⟩
  · intro h v mx my hv
    obtain ⟨qx, qy, hc⟩ := hv
    refine ⟨_, _, mirror_coords hc mx my, ?_⟩
    cases mx <;> cases my <;>
      exact ⟨_, _, by simpa [jneg] using coordsAt_concat h _ _⟩
  · intro E h p dq o ho
    obtain ⟨ox, oy, hc⟩ := ho
    obtain ⟨h2, hrun, hcr, _⟩ := rotate_coords E p dq hc
    exact ⟨h2, _, hrun, _, _, hcr⟩
  · intro E h aq rq
    refine ⟨rq * E.cos aq, rq * E.sin aq, ?_⟩
    have := fromPolar_coords E h (some aq) (some rq)
    simpa [jmul] using this
  · intro E h arc ox oy rq sa ea ho hr hs he
    obtain ⟨h2, p1, p2, hrun, hc1, hc2, _⟩ := fromArc_coords E ho hr hs he
    exact ⟨h2, p1, p2, hrun, ⟨_, _, hc1⟩, ⟨_, _, hc2⟩⟩

/-- C2 (witness): the amended theorem applied at concrete inputs — a
good `Ensure` argument (the numeric array `[3, 4]`), a finite `Add`,
and a finite `FromArc`. -/
theorem outputs_finite_on_good_inputs_witness :
    (EnsureGood [] [.arr [.num (some 3), .num (some 4)]] = true ∧
      finiteCoords (Ensure [] [.arr [.num (some 3), .num (some 4)]]).1
        (Ensure [] [.arr [.num (some 3), .num (some 4)]]).2) ∧
    (finiteCoords demoHeap (.ref 0) ∧
      ∃ h2 r, Add demoHeap (.ref 0) (.ref 0) false = .ok (h2, r) ∧ finiteCoords h2 r) ∧
    (∃ h2 p1 p2,
      FromArc E0 demoHeap (IMakerPathArc.mk (.ref 0) (some 5) (some 0) (some 90)) =
        .ok (h2, (p1, p2)) ∧ finiteCoords h2 p1 ∧ finiteCoords h2 p2) := by
  have hfin : finiteCoords demoHeap (.ref 0) := ⟨1, 2, rfl⟩
  refine ⟨⟨rfl, ?_⟩, ⟨hfin, ?_⟩, ?_⟩
  · exact outputs_finite_on_good_inputs.2.1 [] [.arr [.num (some 3), .num (some 4)]] rfl
  · exact outputs_finite_on_good_inputs.2.2.2.1 demoHeap (.ref 0) (.ref 0) false hfin hfin
  · exact outputs_finite_on_good_inputs.2.2.2.2.2.2.2.2.2 E0 demoHeap
      (IMakerPathArc.mk (.ref 0) (some 5) (some 0) (some 90)) 1 2 5 0 90 rfl rfl rfl rfl

end MakerPoint
